import Mathlib

/-!
# Verification of the hangtime scheduling core

A shallow embedding of the hangtime repository's aggregation and
orchestration core, together with theorems settling the specification's
claims about it.

Part I embeds the pure client-side selection helpers
(`getBestTimeSlot`, `getBestTimeSlotIds` from the shared date-utils
module) over aggregated time options.

Part II embeds the server storage layer (`storage.ts`) and route
handlers (`routes.ts`) as explicit state passing over a `DBState`
holding the four entity collections: events, time options,
participants, availability rows.
-/

namespace Hangtime

/-- The `availabilityCount` record built by `getEventByShareId`
(storage.ts): per-status tallies plus a total. -/
structure AvailabilityCount where
  available : Nat
  maybe : Nat
  unavailable : Nat
  total : Nat
  deriving Repr, DecidableEq

/-- An aggregated time option as consumed by the client-side selection
helpers: its identifier and its `availabilityCount`.  (The date/time
display fields play no role in selection and are omitted.) -/
structure AggTimeOption where
  id : Nat
  availabilityCount : AvailabilityCount
  deriving Repr, DecidableEq

/-- One step of the reducer inside `getBestTimeSlot` (part_000):
`current` replaces `best` when it has strictly more `available`
responses, or the same `available` and strictly fewer `maybe`. -/
def bestStep (best current : AggTimeOption) : AggTimeOption :=
  if current.availabilityCount.available > best.availabilityCount.available then
    current
  else if current.availabilityCount.available = best.availabilityCount.available then
    if current.availabilityCount.maybe < best.availabilityCount.maybe then current else best
  else
    best

/-- `getBestTimeSlot` (part_000): `null` on an empty list, otherwise
`Array.reduce` with no initial value, i.e. a left fold of `bestStep`
seeded with the first element. -/
def getBestTimeSlot (timeOptions : List AggTimeOption) : Option AggTimeOption :=
  match timeOptions with
  | [] => none
  | x :: xs => some (xs.foldl bestStep x)

/-- `getBestTimeSlotIds` (part_000): empty on an empty list or when the
summed `total` counts are zero; otherwise the ids of every option whose
`available` equals the maximum `available` and whose `maybe` equals the
maximum `maybe` among the options tied at that maximum `available`. -/
def getBestTimeSlotIds (timeOptions : List AggTimeOption) : List Nat :=
  if timeOptions.length = 0 then []
  else
    let totalResponses :=
      timeOptions.foldl (fun sum option => sum + option.availabilityCount.total) 0
    if totalResponses = 0 then []
    else
      let maxAvailable :=
        (timeOptions.map (fun option => option.availabilityCount.available)).foldr max 0
      let topAvailableOptions :=
        timeOptions.filter (fun option => option.availabilityCount.available == maxAvailable)
      let maxMaybe :=
        (topAvailableOptions.map (fun option => option.availabilityCount.maybe)).foldr max 0
      (topAvailableOptions.filter
        (fun option => option.availabilityCount.maybe == maxMaybe)).map
        (fun option => option.id)

/-- The key the selection rules compare options by: `sameKey r o` holds
when `o` has the same `available` and `maybe` counts as `r`. -/
def sameKey (r o : AggTimeOption) : Bool :=
  o.availabilityCount.available == r.availabilityCount.available &&
  o.availabilityCount.maybe == r.availabilityCount.maybe

/-! ## Part II: the server storage layer and route handlers -/

/-- JS `String.prototype.toLowerCase`, modelled character by character. -/
def toLowerCase (s : String) : String := ⟨s.data.map Char.toLower⟩

/-- A row of the `events` table (shared/schema.ts); the `createdAt`
timestamp plays no role in any operation and is omitted. -/
structure EventRow where
  id : Nat
  title : String
  description : Option String
  duration : String
  shareId : String
  deriving Repr, DecidableEq

/-- A row of the `time_options` table (shared/schema.ts). -/
structure TimeOptionRow where
  id : Nat
  eventId : Nat
  date : String
  startTime : String
  endTime : String
  deriving Repr, DecidableEq

/-- A row of the `participants` table (shared/schema.ts); `createdAt`
omitted as above. -/
structure ParticipantRow where
  id : Nat
  eventId : Nat
  name : String
  deriving Repr, DecidableEq

/-- A row of the `availability` table (shared/schema.ts). -/
structure AvailabilityRow where
  id : Nat
  participantId : Nat
  timeOptionId : Nat
  status : String
  deriving Repr, DecidableEq

/-- The database: the four entity collections plus the serial-id
counters the store assigns from. -/
structure DBState where
  events : List EventRow
  timeOptions : List TimeOptionRow
  participants : List ParticipantRow
  availability : List AvailabilityRow
  nextEventId : Nat
  nextTimeOptionId : Nat
  nextParticipantId : Nat
  nextAvailabilityId : Nat
  deriving Repr, DecidableEq

/-- `InsertEvent` (shared/schema.ts): an event draft. -/
structure InsertEvent where
  title : String
  description : Option String
  duration : String
  deriving Repr, DecidableEq

/-- A time-option draft as sent by `POST /api/events` (routes.ts). -/
structure InsertTimeOption where
  date : String
  startTime : String
  endTime : String
  deriving Repr, DecidableEq

/-- One entry of the `availability` array of a participate request
(routes.ts). -/
structure AvailabilityItem where
  timeOptionId : Nat
  status : String
  deriving Repr, DecidableEq

/-- The `availabilityCount` computation inside `getEventByShareId`
(storage.ts lines 86-94): one filter per status label, `total` is the
row count. -/
def countAvailability (availabilityData : List AvailabilityRow) : AvailabilityCount :=
  { available := (availabilityData.filter (fun a => a.status == "available")).length
    maybe := (availabilityData.filter (fun a => a.status == "maybe")).length
    unavailable := (availabilityData.filter (fun a => a.status == "unavailable")).length
    total := availabilityData.length }

/-- One entry of the per-option participant-status list built by
`getEventByShareId`. -/
structure ParticipantStatus where
  id : Nat
  name : String
  status : String
  deriving Repr, DecidableEq

/-- `TimeOptionWithAvailability` (shared/schema.ts): a time option with
its tallies and participant statuses. -/
structure TimeOptionWithAvailability where
  option : TimeOptionRow
  availabilityCount : AvailabilityCount
  participants : List ParticipantStatus
  deriving Repr, DecidableEq

/-- `EventWithDetails` (shared/schema.ts). -/
structure EventWithDetails where
  event : EventRow
  timeOptions : List TimeOptionWithAvailability
  participantCount : Nat
  deriving Repr, DecidableEq

/-- `DatabaseStorage.getEventByShareId` (storage.ts): select the first
event whose `shareId` matches (`undefined` if none), then aggregate each
of its time options over the availability rows, resolving participant
names with `"Unknown"` for a dangling or falsy-empty name (the JS
`participant?.name || "Unknown"`). -/
def getEventByShareId (s : DBState) (shareId : String) : Option EventWithDetails :=
  match s.events.find? (fun e => e.shareId == shareId) with
  | none => none
  | some event =>
    let eventTimeOptions := s.timeOptions.filter (fun t => t.eventId == event.id)
    let eventParticipants := s.participants.filter (fun p => p.eventId == event.id)
    let timeOptionsWithAvailability := eventTimeOptions.map (fun timeOption =>
      let availabilityData := s.availability.filter (fun a => a.timeOptionId == timeOption.id)
      ({ option := timeOption
         availabilityCount := countAvailability availabilityData
         participants := availabilityData.map (fun a =>
           { id := a.participantId
             name := match s.participants.find? (fun p => p.id == a.participantId) with
               | some participant =>
                   if participant.name = "" then "Unknown" else participant.name
               | none => "Unknown"
             status := a.status }) } : TimeOptionWithAvailability))
    some { event := event
           timeOptions := timeOptionsWithAvailability
           participantCount := eventParticipants.length }

/-- The sequential time-option insert loop of `DatabaseStorage.createEvent`
(storage.ts): one `db.insert` per draft, appended in input order.  The
`fail` oracle models the persistence gateway rejecting the `k`-th write
of the call; a rejected write aborts the loop, leaving every earlier
write in place (there is no wrapping transaction in the source). -/
def insertTimeOptionRows (fail : Nat → Bool) :
    Nat → Nat → List InsertTimeOption → DBState →
    Except Unit (List TimeOptionRow) × DBState
  | _, _, [], s => (Except.ok [], s)
  | k, eventId, timeOption :: rest, s =>
    if fail k then (Except.error (), s)
    else
      let newTimeOption : TimeOptionRow :=
        { id := s.nextTimeOptionId
          eventId := eventId
          date := timeOption.date
          startTime := timeOption.startTime
          endTime := timeOption.endTime }
      let s1 := { s with timeOptions := s.timeOptions ++ [newTimeOption]
                         nextTimeOptionId := s.nextTimeOptionId + 1 }
      match insertTimeOptionRows fail (k + 1) eventId rest s1 with
      | (Except.ok rows, s2) => (Except.ok (newTimeOption :: rows), s2)
      | (Except.error e, s2) => (Except.error e, s2)

/-- `DatabaseStorage.createEvent` (storage.ts): insert the event row
(write 0 of the call, with the generated share id and the JS
`event.description || null` defaulting), then insert each time option
sequentially (writes 1, 2, ...).  No transaction wraps the writes. -/
def createEvent (fail : Nat → Bool) (s : DBState) (event : InsertEvent)
    (timeOptionsList : List InsertTimeOption) (shareId : String) :
    Except Unit (EventRow × List TimeOptionRow) × DBState :=
  if fail 0 then (Except.error (), s)
  else
    let newEvent : EventRow :=
      { id := s.nextEventId
        title := event.title
        description := match event.description with
          | some d => if d = "" then none else some d
          | none => none
        duration := event.duration
        shareId := shareId }
    let s1 := { s with events := s.events ++ [newEvent]
                       nextEventId := s.nextEventId + 1 }
    match insertTimeOptionRows fail 1 newEvent.id timeOptionsList s1 with
    | (Except.ok rows, s2) => (Except.ok (newEvent, rows), s2)
    | (Except.error e, s2) => (Except.error e, s2)

/-- Responses of the `POST /api/events` handler (routes.ts). -/
inductive CreateEventResponse where
  | ok (event : EventRow) (timeOptions : List TimeOptionRow)
  | badRequest
  deriving Repr, DecidableEq

/-- The `POST /api/events` handler (routes.ts): `createEventRequestSchema`
checks only the field shapes of the body — captured here by the types of
`event` and `timeOptionsList` — and puts no lower bound on the
`timeOptions` array length, so every well-typed request parses; any
thrown storage error is caught and mapped to a 400 response. -/
def postEvents (fail : Nat → Bool) (s : DBState) (event : InsertEvent)
    (timeOptionsList : List InsertTimeOption) (shareId : String) :
    CreateEventResponse × DBState :=
  match createEvent fail s event timeOptionsList shareId with
  | (Except.ok (e, ts), s1) => (CreateEventResponse.ok e ts, s1)
  | (Except.error _, s1) => (CreateEventResponse.badRequest, s1)

/-- `DatabaseStorage.getParticipantsByEventId` (storage.ts). -/
def getParticipantsByEventId (s : DBState) (eventId : Nat) : List ParticipantRow :=
  s.participants.filter (fun p => p.eventId == eventId)

/-- `DatabaseStorage.createParticipant` (storage.ts): insert a
participant row and return it. -/
def createParticipant (s : DBState) (eventId : Nat) (name : String) :
    ParticipantRow × DBState :=
  let newParticipant : ParticipantRow :=
    { id := s.nextParticipantId, eventId := eventId, name := name }
  (newParticipant,
   { s with participants := s.participants ++ [newParticipant]
            nextParticipantId := s.nextParticipantId + 1 })

/-- The bulk `db.insert(availability).values(...)` of
`DatabaseStorage.setAvailability`: append one row per submitted item, in
order, with consecutive serial ids. -/
def appendAvailabilityRows (participantId : Nat) :
    List AvailabilityItem → DBState → DBState
  | [], s => s
  | item :: rest, s =>
    appendAvailabilityRows participantId rest
      { s with
        availability := s.availability ++
          [{ id := s.nextAvailabilityId
             participantId := participantId
             timeOptionId := item.timeOptionId
             status := item.status }]
        nextAvailabilityId := s.nextAvailabilityId + 1 }

/-- `DatabaseStorage.setAvailability` (storage.ts lines 133-145): delete
every availability row of the participant, then insert the submitted
list (the source skips the insert call on an empty list, which appending
nothing also models). -/
def setAvailability (s : DBState) (participantId : Nat)
    (availabilityList : List AvailabilityItem) : DBState :=
  let s1 := { s with availability :=
      s.availability.filter (fun a => !(a.participantId == participantId)) }
  appendAvailabilityRows participantId availabilityList s1

/-- The status check of `participateRequestSchema` (routes.ts):
`z.enum(["available", "maybe", "unavailable"])`. -/
def validStatus (status : String) : Bool :=
  status == "available" || status == "maybe" || status == "unavailable"

/-- Responses of the participate handler (routes.ts). -/
inductive ParticipateResponse where
  | ok (participantId : Nat)
  | notFound
  | badRequest
  deriving Repr, DecidableEq

/-- The `POST /api/events/:shareId/participate` handler (routes.ts):
parse (the only schema check not captured by the types is the status
enum), look up the event by share id, resolve the participant by
case-insensitive name match against the event's participants (reusing
the match, creating a row otherwise), then replace that participant's
whole response set. -/
def participate (s : DBState) (shareId : String) (name : String)
    (availabilityList : List AvailabilityItem) : ParticipateResponse × DBState :=
  if !(availabilityList.all (fun item => validStatus item.status)) then
    (ParticipateResponse.badRequest, s)
  else
    match s.events.find? (fun e => e.shareId == shareId) with
    | none => (ParticipateResponse.notFound, s)
    | some event =>
      let existingParticipants := getParticipantsByEventId s event.id
      match existingParticipants.find?
          (fun p => toLowerCase p.name == toLowerCase name) with
      | some existingParticipant =>
          (ParticipateResponse.ok existingParticipant.id,
           setAvailability s existingParticipant.id availabilityList)
      | none =>
          let created := createParticipant s event.id name
          (ParticipateResponse.ok created.1.id,
           setAvailability created.2 created.1.id availabilityList)

/-- The rows the bulk insert of `setAvailability` produces: the
submitted items tagged with the participant id, ids consecutive from
`n`. -/
def mkAvailabilityRows : Nat → Nat → List AvailabilityItem → List AvailabilityRow
  | _, _, [] => []
  | n, participantId, item :: rest =>
    { id := n
      participantId := participantId
      timeOptionId := item.timeOptionId
      status := item.status } :: mkAvailabilityRows (n + 1) participantId rest

/-- The data-model invariant of §3: at most one availability row per
(participant, time option) pair. -/
def atMostOnePerPair (s : DBState) : Prop :=
  s.availability.Pairwise
    (fun a b => a.participantId ≠ b.participantId ∨ a.timeOptionId ≠ b.timeOptionId)

instance (s : DBState) : Decidable (atMostOnePerPair s) := by
  unfold atMostOnePerPair
  infer_instance

/-- A small concrete database: one event "Lunch" with share id
"abc123" and one time option, nobody has responded yet. -/
def demoState : DBState :=
  { events := [⟨1, "Lunch", none, "1 hour", "abc123"⟩]
    timeOptions := [⟨1, 1, "2024-06-01", "12:00", "13:00"⟩]
    participants := []
    availability := []
    nextEventId := 2
    nextTimeOptionId := 2
    nextParticipantId := 1
    nextAvailabilityId := 1 }

/-- An empty database. -/
def emptyState : DBState :=
  { events := []
    timeOptions := []
    participants := []
    availability := []
    nextEventId := 1
    nextTimeOptionId := 1
    nextParticipantId := 1
    nextAvailabilityId := 1 }

/-- A concrete database with two participants who both responded to the
single "Lunch" time option: Alice is available, Bob a maybe. -/
def demoRespState : DBState :=
  { events := [⟨1, "Lunch", none, "1 hour", "abc123"⟩]
    timeOptions := [⟨1, 1, "2024-06-01", "12:00", "13:00"⟩]
    participants := [⟨1, 1, "Alice"⟩, ⟨2, 1, "Bob"⟩]
    availability := [⟨1, 1, 1, "available"⟩, ⟨2, 2, 1, "maybe"⟩]
    nextEventId := 2
    nextTimeOptionId := 2
    nextParticipantId := 3
    nextAvailabilityId := 3 }

/-- The aggregated time option `getEventByShareId` builds for the
"Lunch" option of `demoRespState`. -/
def demoTimeOption : TimeOptionWithAvailability :=
  ⟨⟨1, 1, "2024-06-01", "12:00", "13:00"⟩, ⟨1, 1, 0, 2⟩,
   [⟨1, "Alice", "available"⟩, ⟨2, "Bob", "maybe"⟩]⟩

/-- The full aggregate `getEventByShareId` returns on `demoRespState`. -/
def demoDetails : EventWithDetails :=
  ⟨⟨1, "Lunch", none, "1 hour", "abc123"⟩, [demoTimeOption], 2⟩

/-! ## Lemmas and theorems -/

lemma foldl_add_total (l : List AggTimeOption) (a : Nat) :
    l.foldl (fun sum option => sum + option.availabilityCount.total) a
      = a + (l.map (fun o => o.availabilityCount.total)).sum := by
  induction l generalizing a with
  | nil => simp
  | cons x xs ih => simp [List.foldl_cons, ih, Nat.add_assoc]

lemma le_foldr_max {l : List Nat} {x : Nat} (h : x ∈ l) : x ≤ l.foldr max 0 := by
  induction l with
  | nil => cases h
  | cons y ys ih =>
    rcases List.mem_cons.mp h with rfl | hmem
    · exact Nat.le_max_left _ _
    · exact le_trans (ih hmem) (Nat.le_max_right _ _)

lemma foldr_max_mem {l : List Nat} (h : l ≠ []) : l.foldr max 0 ∈ l := by
  induction l with
  | nil => exact absurd rfl h
  | cons y ys ih =>
    cases ys with
    | nil => simp
    | cons z zs =>
      rcases Nat.le_total ((z :: zs).foldr max 0) y with hle | hle
      · simp only [List.foldr_cons] at *
        rw [Nat.max_eq_left hle]
        exact List.mem_cons_self _ _
      · simp only [List.foldr_cons] at *
        rw [Nat.max_eq_right hle]
        exact List.mem_cons_of_mem _ (ih (by simp))

/-- **C1.** `getBestTimeSlotIds` returns `[]` on an empty list or when the
summed `total` counts are zero; otherwise an id is in the result exactly
when some option of the list carries it, that option's `available` count
is maximal over the whole list, and its `maybe` count is maximal among
the options tied at that maximal `available` — all ties kept, nothing
else included. -/
theorem getBestTimeSlotIds_spec (l : List AggTimeOption) :
    ((l = [] ∨ (l.map (fun o => o.availabilityCount.total)).sum = 0) →
      getBestTimeSlotIds l = [])
    ∧ (l ≠ [] → (l.map (fun o => o.availabilityCount.total)).sum ≠ 0 →
        ∀ x, x ∈ getBestTimeSlotIds l ↔
          ∃ o, o ∈ l ∧ o.id = x ∧
            (∀ p ∈ l, p.availabilityCount.available ≤ o.availabilityCount.available) ∧
            (∀ p ∈ l, p.availabilityCount.available = o.availabilityCount.available →
              p.availabilityCount.maybe ≤ o.availabilityCount.maybe)) := by
  constructor
  · rintro (rfl | hsum)
    · rfl
    · unfold getBestTimeSlotIds
      by_cases hlen : l.length = 0
      · simp [hlen]
      · simp only [hlen, if_false, foldl_add_total, Nat.zero_add, hsum, if_true, if_pos rfl]
  · intro hne hsum x
    have hlen : ¬ l.length = 0 := by simpa [List.length_eq_zero] using hne
    unfold getBestTimeSlotIds
    simp only [hlen, if_false, foldl_add_total, Nat.zero_add, hsum, if_false]
    set maxAvailable := (l.map (fun o => o.availabilityCount.available)).foldr max 0 with hma
    set top := l.filter (fun o => o.availabilityCount.available == maxAvailable) with htop
    set maxMaybe := (top.map (fun o => o.availabilityCount.maybe)).foldr max 0 with hmm
    -- maxAvailable bounds every option and is attained
    have hA1 : ∀ p ∈ l, p.availabilityCount.available ≤ maxAvailable := by
      intro p hp
      exact le_foldr_max (List.mem_map.mpr ⟨p, hp, rfl⟩)
    have hA2 : ∃ q ∈ l, q.availabilityCount.available = maxAvailable := by
      have hmem : maxAvailable ∈ l.map (fun o => o.availabilityCount.available) := by
        rw [hma]
        exact foldr_max_mem (by simpa using hne)
      rcases List.mem_map.mp hmem with ⟨q, hq, hqa⟩
      exact ⟨q, hq, hqa⟩
    have htopmem : ∀ p, p ∈ top ↔ p ∈ l ∧ p.availabilityCount.available = maxAvailable := by
      intro p
      rw [htop, List.mem_filter]
      simp [beq_iff_eq]
    -- maxMaybe bounds every tied option and is attained
    have hB1 : ∀ p ∈ top, p.availabilityCount.maybe ≤ maxMaybe := by
      intro p hp
      exact le_foldr_max (List.mem_map.mpr ⟨p, hp, rfl⟩)
    have htopne : top ≠ [] := by
      rcases hA2 with ⟨q, hq, hqa⟩
      intro habs
      have : q ∈ top := (htopmem q).mpr ⟨hq, hqa⟩
      rw [habs] at this
      cases this
    have hB2 : ∃ w ∈ top, w.availabilityCount.maybe = maxMaybe := by
      have hmem : maxMaybe ∈ top.map (fun o => o.availabilityCount.maybe) := by
        rw [hmm]
        exact foldr_max_mem (by simpa using htopne)
      rcases List.mem_map.mp hmem with ⟨w, hw, hwa⟩
      exact ⟨w, hw, hwa⟩
    constructor
    · intro hx
      rcases List.mem_map.mp hx with ⟨o, ho, hoid⟩
      rcases List.mem_filter.mp ho with ⟨hotop, homb⟩
      have homb' : o.availabilityCount.maybe = maxMaybe := by simpa [beq_iff_eq] using homb
      rcases (htopmem o).mp hotop with ⟨hol, hoa⟩
      refine ⟨o, hol, hoid, ?_, ?_⟩
      · intro p hp
        rw [hoa]
        exact hA1 p hp
      · intro p hp hpa
        have hptop : p ∈ top := (htopmem p).mpr ⟨hp, by rw [hpa, hoa]⟩
        rw [homb']
        exact hB1 p hptop
    · rintro ⟨o, hol, hoid, hmax, hmin⟩
      have hoa : o.availabilityCount.available = maxAvailable := by
        rcases hA2 with ⟨q, hq, hqa⟩
        have h1 : maxAvailable ≤ o.availabilityCount.available := hqa ▸ hmax q hq
        exact Nat.le_antisymm (hA1 o hol) h1
      have hotop : o ∈ top := (htopmem o).mpr ⟨hol, hoa⟩
      have homb : o.availabilityCount.maybe = maxMaybe := by
        rcases hB2 with ⟨w, hw, hwa⟩
        rcases (htopmem w).mp hw with ⟨hwl, hwaav⟩
        have h1 : maxMaybe ≤ o.availabilityCount.maybe := by
          rw [← hwa]
          exact hmin w hwl (by rw [hwaav, hoa])
        exact Nat.le_antisymm (hB1 o hotop) h1
      refine List.mem_map.mpr ⟨o, ?_, hoid⟩
      exact List.mem_filter.mpr ⟨hotop, by simpa [beq_iff_eq] using homb⟩

/-- Characterization of the left fold inside `getBestTimeSlot`: the fold
result maximizes `available`, minimizes `maybe` among the options tied at
that maximum `available`, and is the first element of the seeded list
carrying that (`available`, `maybe`) pair. -/
lemma foldl_bestStep_spec (xs : List AggTimeOption) : ∀ acc : AggTimeOption,
    (∀ o ∈ acc :: xs, o.availabilityCount.available ≤
      (xs.foldl bestStep acc).availabilityCount.available)
    ∧ (∀ o ∈ acc :: xs,
        o.availabilityCount.available = (xs.foldl bestStep acc).availabilityCount.available →
        (xs.foldl bestStep acc).availabilityCount.maybe ≤ o.availabilityCount.maybe)
    ∧ (acc :: xs).find? (sameKey (xs.foldl bestStep acc)) = some (xs.foldl bestStep acc) := by
  induction xs with
  | nil =>
    intro acc
    refine ⟨?_, ?_, ?_⟩
    · intro o ho
      rcases List.mem_cons.mp ho with rfl | h
      · exact Nat.le_refl _
      · cases h
    · intro o ho _
      rcases List.mem_cons.mp ho with rfl | h
      · exact Nat.le_refl _
      · cases h
    · simp [List.find?, sameKey]
  | cons y ys ih =>
    intro acc
    rw [List.foldl_cons]
    obtain ⟨hmax, hmin, hfind⟩ := ih (bestStep acc y)
    set r := ys.foldl bestStep (bestStep acc y) with hr
    by_cases h1 : y.availabilityCount.available > acc.availabilityCount.available
    · -- current wins on available: bestStep acc y = y
      have hb : bestStep acc y = y := by simp [bestStep, h1]
      rw [hb] at hmax hmin hfind
      have hy_max : y.availabilityCount.available ≤ r.availabilityCount.available :=
        hmax y (List.mem_cons_self _ _)
      refine ⟨?_, ?_, ?_⟩
      · intro o ho
        rcases List.mem_cons.mp ho with rfl | ho'
        · omega
        · exact hmax o ho'
      · intro o ho heq
        rcases List.mem_cons.mp ho with rfl | ho'
        · omega
        · exact hmin o ho' heq
      · have hka : sameKey r acc = false := by
          simp only [sameKey, Bool.and_eq_false_iff, beq_eq_false_iff_ne, ne_eq]
          left
          omega
        rw [List.find?_cons_of_neg _ (by simp [hka]), hfind]
    · by_cases h2 : y.availabilityCount.available = acc.availabilityCount.available
      · by_cases h3 : y.availabilityCount.maybe < acc.availabilityCount.maybe
        · -- tie on available, current has fewer maybe: bestStep acc y = y
          have hb : bestStep acc y = y := by simp [bestStep, h1, h2, h3]
          rw [hb] at hmax hmin hfind
          have hy_max : y.availabilityCount.available ≤ r.availabilityCount.available :=
            hmax y (List.mem_cons_self _ _)
          have hy_min : y.availabilityCount.available = r.availabilityCount.available →
              r.availabilityCount.maybe ≤ y.availabilityCount.maybe :=
            hmin y (List.mem_cons_self _ _)
          refine ⟨?_, ?_, ?_⟩
          · intro o ho
            rcases List.mem_cons.mp ho with rfl | ho'
            · omega
            · exact hmax o ho'
          · intro o ho heq
            rcases List.mem_cons.mp ho with rfl | ho'
            · have := hy_min (by omega)
              omega
            · exact hmin o ho' heq
          · have hka : sameKey r acc = false := by
              simp only [sameKey, Bool.and_eq_false_iff, beq_eq_false_iff_ne, ne_eq]
              by_cases hav : acc.availabilityCount.available = r.availabilityCount.available
              · right
                have := hy_min (by omega)
                omega
              · left
                exact hav
            rw [List.find?_cons_of_neg _ (by simp [hka]), hfind]
        · -- tie on available, current has no fewer maybe: bestStep acc y = acc
          have hb : bestStep acc y = acc := by simp [bestStep, h1, h2, h3]
          rw [hb] at hmax hmin hfind
          have hacc_max : acc.availabilityCount.available ≤ r.availabilityCount.available :=
            hmax acc (List.mem_cons_self _ _)
          have hacc_min : acc.availabilityCount.available = r.availabilityCount.available →
              r.availabilityCount.maybe ≤ acc.availabilityCount.maybe :=
            hmin acc (List.mem_cons_self _ _)
          refine ⟨?_, ?_, ?_⟩
          · intro o ho
            rcases List.mem_cons.mp ho with rfl | ho'
            · exact hmax _ (List.mem_cons_self _ _)
            rcases List.mem_cons.mp ho' with rfl | ho''
            · omega
            · exact hmax o (List.mem_cons_of_mem _ ho'')
          · intro o ho heq
            rcases List.mem_cons.mp ho with rfl | ho'
            · exact hmin _ (List.mem_cons_self _ _) heq
            rcases List.mem_cons.mp ho' with rfl | ho''
            · have := hacc_min (by omega)
              omega
            · exact hmin o (List.mem_cons_of_mem _ ho'') heq
          · by_cases hka : sameKey r acc = true
            · rw [List.find?_cons_of_pos _ hka] at hfind
              rw [List.find?_cons_of_pos _ hka]
              exact hfind
            · have hka' : sameKey r acc = false := by
                cases h : sameKey r acc
                · rfl
                · exact absurd h hka
              rw [List.find?_cons_of_neg _ (by simp [hka'])] at hfind
              have hky : sameKey r y = false := by
                simp only [sameKey, Bool.and_eq_false_iff, beq_eq_false_iff_ne, ne_eq]
                by_cases hav : y.availabilityCount.available = r.availabilityCount.available
                · right
                  have h4 : acc.availabilityCount.available = r.availabilityCount.available := by
                    omega
                  have h5 := hacc_min h4
                  have h6 : ¬ (acc.availabilityCount.maybe = r.availabilityCount.maybe) := by
                    intro habs
                    apply hka
                    simp [sameKey, beq_iff_eq, h4, habs]
                  omega
                · left
                  exact hav
              rw [List.find?_cons_of_neg _ (by simp [hka']),
                List.find?_cons_of_neg _ (by simp [hky])]
              exact hfind
      · -- current loses on available: bestStep acc y = acc
        have hb : bestStep acc y = acc := by simp [bestStep, h1, h2]
        rw [hb] at hmax hmin hfind
        have hacc_max : acc.availabilityCount.available ≤ r.availabilityCount.available :=
          hmax acc (List.mem_cons_self _ _)
        have hyacc : y.availabilityCount.available < acc.availabilityCount.available := by
          omega
        refine ⟨?_, ?_, ?_⟩
        · intro o ho
          rcases List.mem_cons.mp ho with rfl | ho'
          · exact hmax _ (List.mem_cons_self _ _)
          rcases List.mem_cons.mp ho' with rfl | ho''
          · omega
          · exact hmax o (List.mem_cons_of_mem _ ho'')
        · intro o ho heq
          rcases List.mem_cons.mp ho with rfl | ho'
          · exact hmin _ (List.mem_cons_self _ _) heq
          rcases List.mem_cons.mp ho' with rfl | ho''
          · omega
          · exact hmin o (List.mem_cons_of_mem _ ho'') heq
        · by_cases hka : sameKey r acc = true
          · rw [List.find?_cons_of_pos _ hka] at hfind
            rw [List.find?_cons_of_pos _ hka]
            exact hfind
          · have hka' : sameKey r acc = false := by
              cases h : sameKey r acc
              · rfl
              · exact absurd h hka
            rw [List.find?_cons_of_neg _ (by simp [hka'])] at hfind
            have hky : sameKey r y = false := by
              simp only [sameKey, Bool.and_eq_false_iff, beq_eq_false_iff_ne, ne_eq]
              left
              omega
            rw [List.find?_cons_of_neg _ (by simp [hka']),
              List.find?_cons_of_neg _ (by simp [hky])]
            exact hfind

/-- **C3.** On a non-empty list, the legacy `getBestTimeSlot` returns the
option that, among the options whose `available` count is maximal over
the list, appears first with the minimum `maybe` count of that
max-`available` subset: the result `r` maximizes `available`, minimizes
`maybe` among options tied at that maximum, and is the first option of
the list carrying exactly that (`available`, `maybe`) pair. -/
theorem getBestTimeSlot_first_min_maybe (l : List AggTimeOption) (h : l ≠ []) :
    ∃ r, getBestTimeSlot l = some r
      ∧ r ∈ l
      ∧ (∀ o ∈ l, o.availabilityCount.available ≤ r.availabilityCount.available)
      ∧ (∀ o ∈ l, o.availabilityCount.available = r.availabilityCount.available →
          r.availabilityCount.maybe ≤ o.availabilityCount.maybe)
      ∧ l.find? (sameKey r) = some r := by
  match l with
  | [] => exact absurd rfl h
  | x :: xs =>
    obtain ⟨hmax, hmin, hfind⟩ := foldl_bestStep_spec xs x
    refine ⟨xs.foldl bestStep x, rfl, ?_, hmax, hmin, hfind⟩
    exact List.mem_of_find?_eq_some hfind

/-- Witness for C3 at a concrete input: on the round-trip example list,
the legacy selection picks the first option carrying the optimal key. -/
theorem getBestTimeSlot_first_min_maybe_witness :
    ∃ r, getBestTimeSlot
        [⟨1, ⟨2, 1, 0, 3⟩⟩, ⟨2, ⟨1, 0, 0, 1⟩⟩, ⟨3, ⟨2, 0, 1, 3⟩⟩] = some r
      ∧ r ∈ [⟨1, ⟨2, 1, 0, 3⟩⟩, ⟨2, ⟨1, 0, 0, 1⟩⟩, ⟨3, ⟨2, 0, 1, 3⟩⟩]
      ∧ (∀ o ∈ [(⟨1, ⟨2, 1, 0, 3⟩⟩ : AggTimeOption), ⟨2, ⟨1, 0, 0, 1⟩⟩, ⟨3, ⟨2, 0, 1, 3⟩⟩],
          o.availabilityCount.available ≤ r.availabilityCount.available)
      ∧ (∀ o ∈ [(⟨1, ⟨2, 1, 0, 3⟩⟩ : AggTimeOption), ⟨2, ⟨1, 0, 0, 1⟩⟩, ⟨3, ⟨2, 0, 1, 3⟩⟩],
          o.availabilityCount.available = r.availabilityCount.available →
          r.availabilityCount.maybe ≤ o.availabilityCount.maybe)
      ∧ [(⟨1, ⟨2, 1, 0, 3⟩⟩ : AggTimeOption), ⟨2, ⟨1, 0, 0, 1⟩⟩, ⟨3, ⟨2, 0, 1, 3⟩⟩].find?
          (sameKey r) = some r :=
  getBestTimeSlot_first_min_maybe
    [⟨1, ⟨2, 1, 0, 3⟩⟩, ⟨2, ⟨1, 0, 0, 1⟩⟩, ⟨3, ⟨2, 0, 1, 3⟩⟩] (by decide)

/-- Witness for C1 at concrete inputs: with all `total` counts zero the
selection is empty, and on the tie example `A(available 2, maybe 1)`,
`B(available 2, maybe 1)` both ids are selected. -/
theorem getBestTimeSlotIds_spec_witness :
    getBestTimeSlotIds [⟨1, ⟨0, 0, 0, 0⟩⟩, ⟨2, ⟨0, 0, 0, 0⟩⟩] = []
    ∧ 1 ∈ getBestTimeSlotIds [⟨1, ⟨2, 1, 0, 3⟩⟩, ⟨2, ⟨2, 1, 0, 3⟩⟩]
    ∧ 2 ∈ getBestTimeSlotIds [⟨1, ⟨2, 1, 0, 3⟩⟩, ⟨2, ⟨2, 1, 0, 3⟩⟩] :=
  ⟨(getBestTimeSlotIds_spec [⟨1, ⟨0, 0, 0, 0⟩⟩, ⟨2, ⟨0, 0, 0, 0⟩⟩]).1 (Or.inr (by decide)),
   ((getBestTimeSlotIds_spec [⟨1, ⟨2, 1, 0, 3⟩⟩, ⟨2, ⟨2, 1, 0, 3⟩⟩]).2
      (by decide) (by decide) 1).mpr (by decide),
   ((getBestTimeSlotIds_spec [⟨1, ⟨2, 1, 0, 3⟩⟩, ⟨2, ⟨2, 1, 0, 3⟩⟩]).2
      (by decide) (by decide) 2).mpr (by decide)⟩

/-- **C4.** The two selection variants disagree: on the two-option list
`A(id 1, available 2, maybe 1)`, `B(id 2, available 2, maybe 3)` the
legacy single-winner `getBestTimeSlot` picks `A` (fewer `maybe` wins the
tie) while `getBestTimeSlotIds` selects only `B`'s id (more `maybe` wins
the tie), so the single winner is not in the returned set even though
that set is non-empty. -/
theorem selection_variants_differ :
    ∃ (l : List AggTimeOption) (r : AggTimeOption),
      getBestTimeSlot l = some r
      ∧ getBestTimeSlotIds l ≠ []
      ∧ r.id ∉ getBestTimeSlotIds l := by
  refine ⟨[⟨1, ⟨2, 1, 0, 3⟩⟩, ⟨2, ⟨2, 3, 0, 5⟩⟩], ⟨1, ⟨2, 1, 0, 3⟩⟩, ?_, ?_, ?_⟩
  · rfl
  · decide
  · decide

/-- **C10.** On a non-empty list where nobody has responded (every
option's counts are all zero), the legacy `getBestTimeSlot` still
returns the first option of the list, while `getBestTimeSlotIds`
returns the empty recommendation. -/
theorem getBestTimeSlot_all_zero (l : List AggTimeOption) (h : l ≠ [])
    (hz : ∀ o ∈ l, o.availabilityCount.available = 0
      ∧ o.availabilityCount.maybe = 0 ∧ o.availabilityCount.total = 0) :
    getBestTimeSlot l = l.head? ∧ getBestTimeSlotIds l = [] := by
  constructor
  · match l with
    | [] => exact absurd rfl h
    | x :: xs =>
      simp only [getBestTimeSlot, List.head?]
      have hkeep : ∀ ys : List AggTimeOption, (∀ o ∈ ys, o.availabilityCount.available = 0
          ∧ o.availabilityCount.maybe = 0 ∧ o.availabilityCount.total = 0) →
          ∀ acc : AggTimeOption, acc.availabilityCount.available = 0 →
          acc.availabilityCount.maybe = 0 → ys.foldl bestStep acc = acc := by
        intro ys
        induction ys with
        | nil => intro _ acc _ _; rfl
        | cons y ys ih =>
          intro hys acc hacc1 hacc2
          obtain ⟨hy1, hy2, _⟩ := hys y (List.mem_cons_self _ _)
          have hstep : bestStep acc y = acc := by
            simp [bestStep, hy1, hy2, hacc1, hacc2]
          rw [List.foldl_cons, hstep]
          exact ih (fun o ho => hys o (List.mem_cons_of_mem _ ho)) acc hacc1 hacc2
      obtain ⟨hx1, hx2, _⟩ := hz x (List.mem_cons_self _ _)
      rw [hkeep xs (fun o ho => hz o (List.mem_cons_of_mem _ ho)) x hx1 hx2]
  · apply (getBestTimeSlotIds_spec l).1
    right
    have : ∀ o ∈ l, o.availabilityCount.total = 0 := fun o ho => (hz o ho).2.2
    rw [List.sum_eq_zero]
    intro t ht
    rcases List.mem_map.mp ht with ⟨o, ho, rfl⟩
    exact this o ho

/-- Witness for C10 at a concrete input: two unanswered options — the
legacy rule recommends the first, the set rule recommends nothing. -/
theorem getBestTimeSlot_all_zero_witness :
    getBestTimeSlot [⟨7, ⟨0, 0, 0, 0⟩⟩, ⟨8, ⟨0, 0, 0, 0⟩⟩]
        = [(⟨7, ⟨0, 0, 0, 0⟩⟩ : AggTimeOption), ⟨8, ⟨0, 0, 0, 0⟩⟩].head?
    ∧ getBestTimeSlotIds [⟨7, ⟨0, 0, 0, 0⟩⟩, ⟨8, ⟨0, 0, 0, 0⟩⟩] = [] :=
  getBestTimeSlot_all_zero [⟨7, ⟨0, 0, 0, 0⟩⟩, ⟨8, ⟨0, 0, 0, 0⟩⟩]
    (by decide) (by decide)

lemma appendAvailabilityRows_availability (participantId : Nat)
    (items : List AvailabilityItem) (s : DBState) :
    (appendAvailabilityRows participantId items s).availability
      = s.availability ++ mkAvailabilityRows s.nextAvailabilityId participantId items := by
  induction items generalizing s with
  | nil => simp [appendAvailabilityRows, mkAvailabilityRows]
  | cons item rest ih =>
    simp [appendAvailabilityRows, mkAvailabilityRows, ih, List.append_assoc]

lemma appendAvailabilityRows_events (participantId : Nat)
    (items : List AvailabilityItem) (s : DBState) :
    (appendAvailabilityRows participantId items s).events = s.events := by
  induction items generalizing s with
  | nil => rfl
  | cons item rest ih => simp [appendAvailabilityRows, ih]

lemma appendAvailabilityRows_participants (participantId : Nat)
    (items : List AvailabilityItem) (s : DBState) :
    (appendAvailabilityRows participantId items s).participants = s.participants := by
  induction items generalizing s with
  | nil => rfl
  | cons item rest ih => simp [appendAvailabilityRows, ih]

lemma mkAvailabilityRows_participantId (n participantId : Nat)
    (items : List AvailabilityItem) :
    ∀ a ∈ mkAvailabilityRows n participantId items, a.participantId = participantId := by
  induction items generalizing n with
  | nil => intro a ha; cases ha
  | cons item rest ih =>
    intro a ha
    rcases List.mem_cons.mp ha with rfl | ha'
    · rfl
    · exact ih (n + 1) a ha'

lemma mkAvailabilityRows_entries (n participantId : Nat)
    (items : List AvailabilityItem) :
    (mkAvailabilityRows n participantId items).map (fun a => (a.timeOptionId, a.status))
      = items.map (fun i => (i.timeOptionId, i.status)) := by
  induction items generalizing n with
  | nil => rfl
  | cons item rest ih => simp [mkAvailabilityRows, ih]

lemma mkAvailabilityRows_timeOptionIds (n participantId : Nat)
    (items : List AvailabilityItem) :
    (mkAvailabilityRows n participantId items).map (fun a => a.timeOptionId)
      = items.map (fun i => i.timeOptionId) := by
  induction items generalizing n with
  | nil => rfl
  | cons item rest ih => simp [mkAvailabilityRows, ih]

lemma setAvailability_events (s : DBState) (participantId : Nat)
    (items : List AvailabilityItem) :
    (setAvailability s participantId items).events = s.events := by
  simp [setAvailability, appendAvailabilityRows_events]

lemma setAvailability_participants (s : DBState) (participantId : Nat)
    (items : List AvailabilityItem) :
    (setAvailability s participantId items).participants = s.participants := by
  simp [setAvailability, appendAvailabilityRows_participants]

lemma setAvailability_availability (s : DBState) (participantId : Nat)
    (items : List AvailabilityItem) :
    (setAvailability s participantId items).availability
      = s.availability.filter (fun a => !(a.participantId == participantId))
        ++ mkAvailabilityRows s.nextAvailabilityId participantId items := by
  simp [setAvailability, appendAvailabilityRows_availability]

lemma setAvailability_filter_self (s : DBState) (participantId : Nat)
    (items : List AvailabilityItem) :
    (setAvailability s participantId items).availability.filter
        (fun a => a.participantId == participantId)
      = mkAvailabilityRows s.nextAvailabilityId participantId items := by
  rw [setAvailability_availability, List.filter_append]
  have h1 : (s.availability.filter (fun a => !(a.participantId == participantId))).filter
      (fun a => a.participantId == participantId) = [] := by
    rw [List.filter_filter]
    apply List.filter_eq_nil_iff.mpr
    intro a _
    by_cases h : a.participantId = participantId
    · simp [h]
    · simp [h]
  have h2 : (mkAvailabilityRows s.nextAvailabilityId participantId items).filter
      (fun a => a.participantId == participantId)
      = mkAvailabilityRows s.nextAvailabilityId participantId items := by
    apply List.filter_eq_self.mpr
    intro a ha
    simp [mkAvailabilityRows_participantId _ _ _ a ha]
  rw [h1, h2, List.nil_append]

lemma find?_append_of_none {α : Type} (p : α → Bool) {l1 : List α} (l2 : List α)
    (h : l1.find? p = none) : (l1 ++ l2).find? p = l2.find? p := by
  induction l1 with
  | nil => rfl
  | cons x xs ih =>
    rw [List.find?_cons] at h
    rcases hx : p x with _ | _
    · rw [hx] at h
      rw [List.cons_append, List.find?_cons, hx]
      exact ih h
    · rw [hx] at h
      cases h

/-- **C6.** participate is idempotent per participant name: after a
successful submission under `n1`, a second submission under a name `n2`
equal to `n1` up to letter case resolves to the same participant id,
creates no participant row, and leaves that participant's stored
response set equal (as (timeOptionId, status) entries, in order) to the
second submission's list — nothing of the first submission survives. -/
theorem participate_idempotent_by_name (s : DBState) (sid n1 n2 : String)
    (a1 a2 : List AvailabilityItem) (pid : Nat) (s1 : DBState)
    (hname : toLowerCase n1 = toLowerCase n2)
    (hvalid2 : a2.all (fun item => validStatus item.status) = true)
    (h1 : participate s sid n1 a1 = (ParticipateResponse.ok pid, s1)) :
    ∃ s2, participate s1 sid n2 a2 = (ParticipateResponse.ok pid, s2)
      ∧ s2.participants = s1.participants
      ∧ (s2.availability.filter (fun a => a.participantId == pid)).map
          (fun a => (a.timeOptionId, a.status))
        = a2.map (fun i => (i.timeOptionId, i.status)) := by
  cases hv1 : a1.all (fun item => validStatus item.status) with
  | false => simp [participate, hv1] at h1
  | true =>
    cases hev : s.events.find? (fun e => e.shareId == sid) with
    | none => simp [participate, hv1, hev] at h1
    | some event =>
      cases hp : (s.participants.filter (fun p => p.eventId == event.id)).find?
          (fun p => toLowerCase p.name == toLowerCase n1) with
      | some existing =>
        simp only [participate, hv1, Bool.not_true, Bool.false_eq_true, if_false, hev,
          getParticipantsByEventId, hp, Prod.mk.injEq, ParticipateResponse.ok.injEq] at h1
        obtain ⟨hpid, hs1⟩ := h1
        have he1 : s1.events = s.events := by
          rw [← hs1, setAvailability_events]
        have hp1 : s1.participants = s.participants := by
          rw [← hs1, setAvailability_participants]
        refine ⟨setAvailability s1 pid a2, ?_, setAvailability_participants _ _ _, ?_⟩
        · simp only [participate, hvalid2, Bool.not_true, Bool.false_eq_true, if_false,
            he1, hev, getParticipantsByEventId, hp1]
          rw [← hname, hp]
          change (ParticipateResponse.ok existing.id, setAvailability s1 existing.id a2) = _
          rw [hpid]
        · rw [setAvailability_filter_self, mkAvailabilityRows_entries]
      | none =>
        simp only [participate, hv1, Bool.not_true, Bool.false_eq_true, if_false, hev,
          getParticipantsByEventId, hp, createParticipant, Prod.mk.injEq,
          ParticipateResponse.ok.injEq] at h1
        obtain ⟨hpid, hs1⟩ := h1
        have he1 : s1.events = s.events := by
          rw [← hs1, setAvailability_events]
        have hp1 : s1.participants
            = s.participants ++ [⟨s.nextParticipantId, event.id, n1⟩] := by
          rw [← hs1, setAvailability_participants]
        refine ⟨setAvailability s1 pid a2, ?_, setAvailability_participants _ _ _, ?_⟩
        · simp only [participate, hvalid2, Bool.not_true, Bool.false_eq_true, if_false,
            he1, hev, getParticipantsByEventId, hp1]
          rw [List.filter_append]
          have hnew : ([(⟨s.nextParticipantId, event.id, n1⟩ : ParticipantRow)].filter
              (fun p => p.eventId == event.id))
              = [⟨s.nextParticipantId, event.id, n1⟩] := by
            simp
          rw [hnew]
          have hfirst : ((s.participants.filter (fun p => p.eventId == event.id)).find?
              (fun p => toLowerCase p.name == toLowerCase n2)) = none := by
            rw [← hname]
            exact hp
          rw [find?_append_of_none _ _ hfirst]
          have hlast : ([(⟨s.nextParticipantId, event.id, n1⟩ : ParticipantRow)].find?
              (fun p => toLowerCase p.name == toLowerCase n2))
              = some ⟨s.nextParticipantId, event.id, n1⟩ := by
            apply List.find?_cons_of_pos
            simp only [hname]
            exact beq_self_eq_true _
          rw [hlast]
          change (ParticipateResponse.ok s.nextParticipantId,
            setAvailability s1 s.nextParticipantId a2) = _
          rw [hpid]
        · rw [setAvailability_filter_self, mkAvailabilityRows_entries]

/-- Witness for C6 at a concrete input: Alice submits "available" for
the lunch slot, then resubmits as "alice" with "maybe"; the same
participant id 1 is resolved, no participant row is added, and her
stored responses are exactly the second list. -/
theorem participate_idempotent_by_name_witness :
    ∃ s2, participate (participate demoState "abc123" "Alice" [⟨1, "available"⟩]).2
        "abc123" "alice" [⟨1, "maybe"⟩] = (ParticipateResponse.ok 1, s2)
      ∧ s2.participants
        = (participate demoState "abc123" "Alice" [⟨1, "available"⟩]).2.participants
      ∧ (s2.availability.filter (fun a => a.participantId == 1)).map
          (fun a => (a.timeOptionId, a.status))
        = [(⟨1, "maybe"⟩ : AvailabilityItem)].map (fun i => (i.timeOptionId, i.status)) :=
  participate_idempotent_by_name demoState "abc123" "Alice" "alice"
    [⟨1, "available"⟩] [⟨1, "maybe"⟩] 1
    (participate demoState "abc123" "Alice" [⟨1, "available"⟩]).2
    (by decide) (by decide) (by decide)

/-- **C7 counterexample.** A participate call whose payload mentions
time option 1 twice is accepted and leaves two availability rows for
the pair (participant 1, time option 1): the at-most-one-per-pair
invariant does not survive duplicate payloads. -/
theorem participate_duplicate_payload_two_rows :
    atMostOnePerPair demoState
    ∧ (participate demoState "abc123" "Alice"
        [⟨1, "available"⟩, ⟨1, "maybe"⟩]).1 = ParticipateResponse.ok 1
    ∧ ¬ atMostOnePerPair (participate demoState "abc123" "Alice"
        [⟨1, "available"⟩, ⟨1, "maybe"⟩]).2
    ∧ ((participate demoState "abc123" "Alice"
        [⟨1, "available"⟩, ⟨1, "maybe"⟩]).2.availability.filter
        (fun a => a.participantId == 1 && a.timeOptionId == 1)).length = 2 := by
  refine ⟨by decide, by decide, by decide, by decide⟩

lemma setAvailability_preserves_at_most_one (s : DBState) (participantId : Nat)
    (items : List AvailabilityItem)
    (hs : atMostOnePerPair s)
    (hnodup : (items.map (fun i => i.timeOptionId)).Nodup) :
    atMostOnePerPair (setAvailability s participantId items) := by
  unfold atMostOnePerPair at *
  rw [setAvailability_availability, List.pairwise_append]
  refine ⟨List.Pairwise.sublist (List.filter_sublist _) hs, ?_, ?_⟩
  · have h1 : ((mkAvailabilityRows s.nextAvailabilityId participantId items).map
        (fun a => a.timeOptionId)).Pairwise (fun x y => x ≠ y) := by
      rw [mkAvailabilityRows_timeOptionIds]
      exact hnodup
    exact (List.pairwise_map.mp h1).imp (fun h => Or.inr h)
  · intro a ha b hb
    have hbpid : b.participantId = participantId :=
      mkAvailabilityRows_participantId _ _ _ b hb
    have hapid : ¬ (a.participantId = participantId) := by
      have := List.of_mem_filter ha
      simpa using this
    exact Or.inl (by rw [hbpid]; exact hapid)

/-- **C7 (amended).** Provided the payload's `timeOptionId`s are
pairwise distinct — which the route schema does not itself enforce —
`participate` preserves the at-most-one-row-per-(participant, time
option) invariant, whatever its outcome. -/
theorem participate_preserves_at_most_one (s : DBState) (sid pname : String)
    (items : List AvailabilityItem) (r : ParticipateResponse) (s2 : DBState)
    (hs : atMostOnePerPair s)
    (hnodup : (items.map (fun i => i.timeOptionId)).Nodup)
    (h : participate s sid pname items = (r, s2)) :
    atMostOnePerPair s2 := by
  cases hv : items.all (fun item => validStatus item.status) with
  | false =>
    simp only [participate, hv, Bool.not_false, if_true, Prod.mk.injEq] at h
    rw [← h.2]
    exact hs
  | true =>
    cases hev : s.events.find? (fun e => e.shareId == sid) with
    | none =>
      simp only [participate, hv, Bool.not_true, Bool.false_eq_true, if_false, hev,
        Prod.mk.injEq] at h
      rw [← h.2]
      exact hs
    | some event =>
      cases hp : (s.participants.filter (fun p => p.eventId == event.id)).find?
          (fun p => toLowerCase p.name == toLowerCase pname) with
      | some existing =>
        simp only [participate, hv, Bool.not_true, Bool.false_eq_true, if_false, hev,
          getParticipantsByEventId, hp, Prod.mk.injEq] at h
        rw [← h.2]
        exact setAvailability_preserves_at_most_one _ _ _ hs hnodup
      | none =>
        simp only [participate, hv, Bool.not_true, Bool.false_eq_true, if_false, hev,
          getParticipantsByEventId, hp, createParticipant, Prod.mk.injEq] at h
        rw [← h.2]
        exact setAvailability_preserves_at_most_one _ _ _ hs hnodup

/-- Witness for the amended C7: a duplicate-free submission against the
demo database keeps the invariant. -/
theorem participate_preserves_at_most_one_witness :
    atMostOnePerPair (participate demoState "abc123" "Alice" [⟨1, "available"⟩]).2 :=
  participate_preserves_at_most_one demoState "abc123" "Alice" [⟨1, "available"⟩]
    (participate demoState "abc123" "Alice" [⟨1, "available"⟩]).1
    (participate demoState "abc123" "Alice" [⟨1, "available"⟩]).2
    (by decide) (by decide) rfl

lemma filter_status_lengths (rows : List AvailabilityRow) :
    (∀ a ∈ rows, a.status = "available" ∨ a.status = "maybe"
      ∨ a.status = "unavailable") →
    rows.length = (rows.filter (fun a => a.status == "available")).length
      + (rows.filter (fun a => a.status == "maybe")).length
      + (rows.filter (fun a => a.status == "unavailable")).length := by
  induction rows with
  | nil => intro _; rfl
  | cons a rest ih =>
    intro h
    have hrest := ih (fun b hb => h b (List.mem_cons_of_mem _ hb))
    rcases h a (List.mem_cons_self _ _) with h1 | h1 | h1 <;>
      simp [List.filter_cons, h1, List.length_cons] <;> omega

/-- **C2.** Under the closed status set of the data model, every
aggregated time option `getEventByShareId` returns satisfies
`total = available + maybe + unavailable`, each bucket counts exactly
the responses of that time option whose status string equals the
bucket's label, and `total` is the number of those responses. -/
theorem getEventByShareId_counts (s : DBState) (sid : String) (d : EventWithDetails)
    (hvalid : ∀ a ∈ s.availability, a.status = "available" ∨ a.status = "maybe"
      ∨ a.status = "unavailable")
    (h : getEventByShareId s sid = some d) :
    ∀ t ∈ d.timeOptions,
      t.availabilityCount.total
        = t.availabilityCount.available + t.availabilityCount.maybe
          + t.availabilityCount.unavailable
      ∧ t.availabilityCount.available
        = (s.availability.filter (fun a => a.timeOptionId == t.option.id)).countP
            (fun a => a.status == "available")
      ∧ t.availabilityCount.maybe
        = (s.availability.filter (fun a => a.timeOptionId == t.option.id)).countP
            (fun a => a.status == "maybe")
      ∧ t.availabilityCount.unavailable
        = (s.availability.filter (fun a => a.timeOptionId == t.option.id)).countP
            (fun a => a.status == "unavailable")
      ∧ t.availabilityCount.total
        = (s.availability.filter (fun a => a.timeOptionId == t.option.id)).length := by
  intro t ht
  unfold getEventByShareId at h
  cases hev : s.events.find? (fun e => e.shareId == sid) with
  | none => rw [hev] at h; cases h
  | some event =>
    rw [hev] at h
    simp only [Option.some.injEq] at h
    rw [← h] at ht
    simp only [List.mem_map] at ht
    obtain ⟨topt, _, rfl⟩ := ht
    have hrows : ∀ a ∈ s.availability.filter (fun a => a.timeOptionId == topt.id),
        a.status = "available" ∨ a.status = "maybe" ∨ a.status = "unavailable" :=
      fun a ha => hvalid a (List.mem_of_mem_filter ha)
    refine ⟨?_, ?_, ?_, ?_, rfl⟩
    · exact filter_status_lengths _ hrows
    · exact (List.countP_eq_length_filter _ _).symm
    · exact (List.countP_eq_length_filter _ _).symm
    · exact (List.countP_eq_length_filter _ _).symm

/-- Witness for C2 at a concrete input: on the demo database with
Alice available and Bob a maybe, the lunch option tallies as
total 2 = 1 + 1 + 0 with the buckets counting the matching rows. -/
theorem getEventByShareId_counts_witness :
    demoTimeOption.availabilityCount.total
      = demoTimeOption.availabilityCount.available
        + demoTimeOption.availabilityCount.maybe
        + demoTimeOption.availabilityCount.unavailable
    ∧ demoTimeOption.availabilityCount.available
      = (demoRespState.availability.filter
          (fun a => a.timeOptionId == demoTimeOption.option.id)).countP
          (fun a => a.status == "available")
    ∧ demoTimeOption.availabilityCount.maybe
      = (demoRespState.availability.filter
          (fun a => a.timeOptionId == demoTimeOption.option.id)).countP
          (fun a => a.status == "maybe")
    ∧ demoTimeOption.availabilityCount.unavailable
      = (demoRespState.availability.filter
          (fun a => a.timeOptionId == demoTimeOption.option.id)).countP
          (fun a => a.status == "unavailable")
    ∧ demoTimeOption.availabilityCount.total
      = (demoRespState.availability.filter
          (fun a => a.timeOptionId == demoTimeOption.option.id)).length :=
  getEventByShareId_counts demoRespState "abc123" demoDetails
    (by decide) (by decide) demoTimeOption (by decide)

/-- **C9.** Share-link isolation: when no event carries the requested
share id, `getEventByShareId` returns `none`; when it returns an
aggregate, that aggregate's event is one of the stored events and its
share id is exactly the requested one. -/
theorem getEventByShareId_isolation (s : DBState) (sid : String) :
    ((∀ e ∈ s.events, e.shareId ≠ sid) → getEventByShareId s sid = none)
    ∧ (∀ d, getEventByShareId s sid = some d →
        d.event ∈ s.events ∧ d.event.shareId = sid) := by
  constructor
  · intro hnone
    unfold getEventByShareId
    have hfind : s.events.find? (fun e => e.shareId == sid) = none := by
      apply List.find?_eq_none.mpr
      intro e he
      simpa using hnone e he
    rw [hfind]
  · intro d hd
    unfold getEventByShareId at hd
    cases hev : s.events.find? (fun e => e.shareId == sid) with
    | none => rw [hev] at hd; cases hd
    | some event =>
      rw [hev] at hd
      simp only [Option.some.injEq] at hd
      have hmem : event ∈ s.events := List.mem_of_find?_eq_some hev
      have hsid := List.find?_some hev
      rw [← hd]
      exact ⟨hmem, by simpa using hsid⟩

/-- Witness for C9 at concrete inputs: a never-issued share id yields
`none` on the demo database, and the issued one resolves to the stored
"Lunch" event with that exact share id. -/
theorem getEventByShareId_isolation_witness :
    getEventByShareId demoRespState "never-issued" = none
    ∧ demoDetails.event ∈ demoRespState.events
    ∧ demoDetails.event.shareId = "abc123" :=
  ⟨(getEventByShareId_isolation demoRespState "never-issued").1 (by decide),
   (getEventByShareId_isolation demoRespState "abc123").2 demoDetails (by decide)⟩

/-- **C5.** `createEvent` is not all-or-nothing: when the persistence
gateway rejects the insert of the second of two time options (write 2 of
the call), the caller observes the failure but the event row and the
first time option stay persisted — exactly the partial state (event
present, fewer time options than submitted) the claim rules out. -/
theorem createEvent_mid_batch_failure_partial :
    (createEvent (fun k => k == 2) emptyState ⟨"Lunch", none, "1 hour"⟩
        [⟨"2024-06-01", "12:00", "13:00"⟩, ⟨"2024-06-02", "12:00", "13:00"⟩]
        "abc123").1 = Except.error ()
    ∧ (createEvent (fun k => k == 2) emptyState ⟨"Lunch", none, "1 hour"⟩
        [⟨"2024-06-01", "12:00", "13:00"⟩, ⟨"2024-06-02", "12:00", "13:00"⟩]
        "abc123").2.events = [⟨1, "Lunch", none, "1 hour", "abc123"⟩]
    ∧ (createEvent (fun k => k == 2) emptyState ⟨"Lunch", none, "1 hour"⟩
        [⟨"2024-06-01", "12:00", "13:00"⟩, ⟨"2024-06-02", "12:00", "13:00"⟩]
        "abc123").2.timeOptions = [⟨1, 1, "2024-06-01", "12:00", "13:00"⟩] := by
  refine ⟨rfl, by decide, by decide⟩

/-- **C8.** A create-event request whose `timeOptions` list is empty is
not rejected: `createEventRequestSchema` puts no lower bound on the
array, so the handler answers 200 and persists an event with zero time
options. -/
theorem postEvents_accepts_empty_options :
    (postEvents (fun _ => false) emptyState ⟨"Lunch", none, "1 hour"⟩ [] "abc123").1
      = CreateEventResponse.ok ⟨1, "Lunch", none, "1 hour", "abc123"⟩ []
    ∧ (postEvents (fun _ => false) emptyState ⟨"Lunch", none, "1 hour"⟩ [] "abc123").2.events
      = [⟨1, "Lunch", none, "1 hour", "abc123"⟩]
    ∧ (postEvents (fun _ => false) emptyState ⟨"Lunch", none, "1 hour"⟩ []
        "abc123").2.timeOptions = [] := by
  refine ⟨by decide, by decide, by decide⟩

end Hangtime
